import Mathlib

/-!
# Federated module resolution and loading runtime — formal model

The repository configures the `@originjs/vite-plugin-federation` runtime:
`vite.config.ts` declares the remote `my-app-one` (exposing `./lodash` and
`./moment`, sharing `react` and `react-dom` as singletons) and
`vite.config.ts_2` declares consumers (`my-app-two`) that load it.  The
runtime itself (Container Loader, Shared Scope, Module Resolver, Session)
is an external dependency, so its behaviour is modelled here from the
specification; the shipped configuration is embedded verbatim from the
source files.
-/

namespace Federation

/-! ## Semantic versions and version ranges

Modelled from the spec: version-range satisfaction uses a standard
semantic-versioning comparator (spec §9 leaves the exact scheme open and
asks implementers to pick one standard scheme; we use the npm-style
comparators `>= <= > < =`, caret and tilde over `major.minor.patch`
triples, conjunction over space-separated comparators). -/

structure Version where
  major : Nat
  minor : Nat
  patch : Nat
deriving DecidableEq, Repr

/-- Strict lexicographic order on version triples. -/
def Version.ltb (a b : Version) : Bool :=
  if a.major = b.major then
    if a.minor = b.minor then decide (a.patch < b.patch)
    else decide (a.minor < b.minor)
  else decide (a.major < b.major)

theorem Version.ltb_iff (a b : Version) :
    Version.ltb a b = true ↔
      a.major < b.major ∨ (a.major = b.major ∧
        (a.minor < b.minor ∨ (a.minor = b.minor ∧ a.patch < b.patch))) := by
  unfold Version.ltb
  split_ifs with h1 h2 <;> simp_all

theorem Version.ltb_irrefl (a : Version) : Version.ltb a a = false := by
  simp [Version.ltb]

theorem Version.ltb_not_trans {a b c : Version}
    (hab : Version.ltb a b = false) (hbc : Version.ltb b c = false) :
    Version.ltb a c = false := by
  rw [Bool.eq_false_iff] at *
  intro h
  rw [Ne, Version.ltb_iff] at *
  omega

theorem Version.ltb_asymm {a b : Version} (h : Version.ltb a b = true) :
    Version.ltb b a = false := by
  rw [Version.ltb_iff] at h
  rw [Bool.eq_false_iff, Ne, Version.ltb_iff]
  omega

/-- One comparator of a version range. -/
inductive Cmp where
  | lt | le | gt | ge | eq
deriving DecidableEq, Repr

structure Comparator where
  op  : Cmp
  ver : Version
deriving DecidableEq, Repr

/-- A range is a conjunction of comparators. -/
abbrev VRange := List Comparator

def Comparator.holds (c : Comparator) (v : Version) : Bool :=
  match c.op with
  | .lt => Version.ltb v c.ver
  | .le => Version.ltb v c.ver || decide (v = c.ver)
  | .gt => Version.ltb c.ver v
  | .ge => Version.ltb c.ver v || decide (v = c.ver)
  | .eq => decide (v = c.ver)

def VRange.holds (r : VRange) (v : Version) : Bool :=
  r.all (fun c => c.holds v)

/-! ### Parsing range strings -/

def digitVal (c : Char) : Option Nat :=
  if c.isDigit then some (c.toNat - 48) else none

def natOfChars (cs : List Char) : Option Nat :=
  match cs with
  | [] => none
  | _ =>
    cs.foldl (fun acc c =>
      match acc, digitVal c with
      | some n, some d => some (n * 10 + d)
      | _, _ => none) (some 0)

/-- Split a character list on a separator character. -/
def splitChar (sep : Char) : List Char → List (List Char)
  | [] => [[]]
  | c :: cs =>
    match splitChar sep cs with
    | [] => [[c]]
    | g :: gs => if c = sep then [] :: g :: gs else (c :: g) :: gs

def parseVersionChars (cs : List Char) : Option Version :=
  match splitChar '.' cs with
  | [a, b, c] =>
    match natOfChars a, natOfChars b, natOfChars c with
    | some x, some y, some z => some ⟨x, y, z⟩
    | _, _, _ => none
  | _ => none

/-- Desugar a caret comparator to its conjunction of bounds. -/
def caretRange (v : Version) : VRange :=
  if v.major > 0 then [⟨.ge, v⟩, ⟨.lt, ⟨v.major + 1, 0, 0⟩⟩]
  else if v.minor > 0 then [⟨.ge, v⟩, ⟨.lt, ⟨0, v.minor + 1, 0⟩⟩]
  else [⟨.ge, v⟩, ⟨.lt, ⟨0, 0, v.patch + 1⟩⟩]

/-- Desugar a tilde comparator to its conjunction of bounds. -/
def tildeRange (v : Version) : VRange :=
  [⟨.ge, v⟩, ⟨.lt, ⟨v.major, v.minor + 1, 0⟩⟩]

/-- Parse one space-separated token of a range string. -/
def parseToken (cs : List Char) : Option VRange :=
  match cs with
  | '>' :: '=' :: rest => (parseVersionChars rest).map (fun v => [⟨.ge, v⟩])
  | '<' :: '=' :: rest => (parseVersionChars rest).map (fun v => [⟨.le, v⟩])
  | '>' :: rest => (parseVersionChars rest).map (fun v => [⟨.gt, v⟩])
  | '<' :: rest => (parseVersionChars rest).map (fun v => [⟨.lt, v⟩])
  | '=' :: rest => (parseVersionChars rest).map (fun v => [⟨.eq, v⟩])
  | '^' :: rest => (parseVersionChars rest).map caretRange
  | '~' :: rest => (parseVersionChars rest).map tildeRange
  | _ => (parseVersionChars cs).map (fun v => [⟨.eq, v⟩])

def parseTokens (toks : List (List Char)) : Option VRange :=
  match toks with
  | [] => some []
  | t :: ts =>
    match parseToken t, parseTokens ts with
    | some r, some rs => some (r ++ rs)
    | _, _ => none

/-- Parse a full range string; `none` when any token is not a valid
semver comparator (an unparseable required-version string is satisfied
by no version). -/
def parseRange (s : String) : Option VRange :=
  parseTokens ((splitChar ' ' s.toList).filter (fun t => t ≠ []))

/-- Does version `v` satisfy the range string `s` under the standard
comparator?  An unparseable range admits no version. -/
def rangeSatisfies (s : String) (v : Version) : Bool :=
  match parseRange s with
  | none => false
  | some r => r.holds v

/-! ## Data model

Modelled from the spec: the federation runtime's data model (§3) — the
runtime code is an external dependency of the repository, only its
configuration is in the source tree.  Opaque module values (the
"instance" of a SharedEntry, the value a factory produces) are
represented by natural-number identifiers. -/

/-- Error taxonomy of spec §7. -/
inductive FedError where
  | unknownRemote (name : String)
  | duplicateRemote (name : String)
  | remoteLoad (cause : Nat)
  | unknownExposedPath (remote : String) (path : String)
  | sharedDependencyUnresolved (name : String)
  | singletonVersionConflict (name : String) (active : Version) (range : String)
deriving DecidableEq, Repr

/-- A registered shared-dependency instance (spec §3 SharedEntry). -/
structure SharedEntry where
  name      : String
  version   : Version
  inst      : Nat
  singleton : Bool
  eager     : Bool
deriving DecidableEq, Repr

/-- A Container's declared shared-dependency requirement (spec §3/§6):
name, required-version range string, singleton flag, eager flag, and an
optional fallback module (version and instance) the Container itself
provides (spec §4.3 fallback step). -/
structure SharedReq where
  name            : String
  requiredVersion : String
  singleton       : Bool
  eager           : Bool
  fallback        : Option (Version × Nat)
deriving DecidableEq, Repr

/-- An instantiated Container artifact (spec §3/§6): exposed-path table
(path to the module value its zero-argument factory produces) and the
declared shared-dependency requirements, in declaration order. -/
structure Container where
  name    : String
  exposes : List (String × Nat)
  shared  : List SharedReq
deriving DecidableEq, Repr

/-- Recognized configuration surface (spec §6); `warnAndOverride` is the
non-default singleton-conflict policy, `rejectDuplicateRemote` the
`onDuplicateRemote: "reject"` policy. -/
structure Config where
  warnAndOverride       : Bool
  rejectDuplicateRemote : Bool
deriving DecidableEq, Repr

/-- The default configuration: singleton conflicts fail, duplicate
remote registrations replace. -/
def defaultConfig : Config := ⟨false, false⟩

/-- Association-list lookup keyed by decidable equality. -/
def lookupKey {α β : Type} [DecidableEq α] (k : α) : List (α × β) → Option β
  | [] => none
  | (k', v) :: rest => if k = k' then some v else lookupKey k rest

theorem lookupKey_cons_self {α β : Type} [DecidableEq α] (k : α) (v : β)
    (l : List (α × β)) : lookupKey k ((k, v) :: l) = some v := by
  simp [lookupKey]

/-! ## Shared Scope (spec §4.3)

Modelled from the spec: `require` resolves a consumer's requirement
against the scope.  The singleton conflict policy is checked first when
the requirement asks for a singleton and an active singleton instance
exists; otherwise the highest candidate satisfying the range wins, with
a single fallback-registration retry when nothing satisfies. -/

/-- The active singleton instance for a dependency name, if any: the
first registered entry for that name carrying the singleton flag. -/
def activeSingleton (scope : List SharedEntry) (name : String) :
    Option SharedEntry :=
  scope.find? (fun e => e.name = name && e.singleton)

/-- Highest-version entry of a candidate list (first wins on ties). -/
def pickHighest : List SharedEntry → Option SharedEntry
  | [] => none
  | e :: rest =>
    match pickHighest rest with
    | none => some e
    | some b => if Version.ltb e.version b.version then some b else some e

/-- The candidates for a requirement: entries with the right name whose
version satisfies the required range. -/
def candidates (scope : List SharedEntry) (req : SharedReq) :
    List SharedEntry :=
  scope.filter (fun e =>
    e.name = req.name && rangeSatisfies req.requiredVersion e.version)

/-- Select the best candidate; on failure, register the requirement's
fallback module (if declared) as a new candidate and retry once
(spec §4.3), else fail with `SharedDependencyUnresolvedError`.  Returns
the chosen instance together with the (possibly grown) scope. -/
def selectBest (scope : List SharedEntry) (req : SharedReq) :
    Except FedError (Nat × List SharedEntry) :=
  match pickHighest (candidates scope req) with
  | some e => .ok (e.inst, scope)
  | none =>
    match req.fallback with
    | none => .error (.sharedDependencyUnresolved req.name)
    | some (v, i) =>
      let scope' := scope ++ [⟨req.name, v, i, req.singleton, req.eager⟩]
      match pickHighest (candidates scope' req) with
      | some e => .ok (e.inst, scope')
      | none => .error (.sharedDependencyUnresolved req.name)

/-- `require` (spec §4.3): singleton requests against an active
singleton either reuse it (version satisfies the range), fail with
`SingletonVersionConflictError` (default policy), or — only under the
explicit `warnAndOverride` configuration — fall through to ordinary
selection. -/
def require (cfg : Config) (scope : List SharedEntry) (req : SharedReq) :
    Except FedError (Nat × List SharedEntry) :=
  if req.singleton then
    match activeSingleton scope req.name with
    | some e =>
      if rangeSatisfies req.requiredVersion e.version then .ok (e.inst, scope)
      else if cfg.warnAndOverride then selectBest scope req
      else .error (.singletonVersionConflict req.name e.version
        req.requiredVersion)
    | none => selectBest scope req
  else selectBest scope req

/-! ## Session state, Container Loader and Module Resolver (spec §4)

Modelled from the spec: the Federation Session owns the Remote Registry
(§4.1), the Container cache of the Container Loader (§4.2), the Shared
Scope (§4.3) and the Module Resolver's module cache (§4.4).  The outside
world — the HTTP layer serving remote entry artifacts — is an oracle
mapping a location to either an instantiated Container or a failure
cause.  Observable actions (artifact fetches, shared-dependency
resolutions, factory invocations) are recorded as an event trace. -/

/-- The external fetch-and-instantiate oracle (spec §6 remote entry
artifact contract): per location, either the instantiated artifact or a
failure cause. -/
structure World where
  fetch : String → Except Nat Container

/-- Observable events of a resolution. -/
inductive Event where
  | fetch (remote : String)
  | requireShared (remote : String) (dep : String)
  | invoke (remote : String) (path : String)
deriving DecidableEq, Repr

/-- Session state: registry (remote name to location), Container cache
(remote name to Ready container or its recorded `RemoteLoadError`),
module cache keyed by (remote, exposed path), and the Shared Scope. -/
structure State where
  registry   : List (String × String)
  containers : List (String × Except FedError Container)
  modules    : List ((String × String) × Nat)
  scope      : List SharedEntry

/-- The Session's startup state: every cache empty (spec §6: no
persisted state, all caches are process-lifetime only). -/
def initState : State := ⟨[], [], [], []⟩

/-- Container Loader `load` (spec §4.2): cached containers (Ready or
Failed) are returned with no fetch; unknown remotes fail with
`UnknownRemoteError`; otherwise the artifact is fetched once and the
resulting Ready container — or the `RemoteLoadError` wrapping the fetch
failure's cause — is cached permanently. -/
def loadContainer (w : World) (st : State) (r : String) :
    State × List Event × Except FedError Container :=
  match lookupKey r st.containers with
  | some res => (st, [], res)
  | none =>
    match lookupKey r st.registry with
    | none => (st, [], .error (.unknownRemote r))
    | some loc =>
      match w.fetch loc with
      | .ok c =>
        ({ st with containers := (r, .ok c) :: st.containers },
          [.fetch r], .ok c)
      | .error cause =>
        ({ st with containers :=
            (r, .error (.remoteLoad cause)) :: st.containers },
          [.fetch r], .error (.remoteLoad cause))

/-- Explicit cache invalidation of a remote's Container entry
(spec §4.2 edge case: the only way to clear a sticky failure). -/
def invalidate (st : State) (r : String) : State :=
  { st with containers := st.containers.filter (fun p => p.1 ≠ r) }

/-- Resolve a Container's declared shared requirements in declaration
order, threading the scope; the first failure aborts (spec §4.4 step 3,
fail-fast).  Returns the emitted `requireShared` events and either the
grown scope or the first error. -/
def requireList (cfg : Config) (remote : String)
    (scope : List SharedEntry) :
    List SharedReq → List Event × Except FedError (List SharedEntry)
  | [] => ([], .ok scope)
  | req :: rest =>
    match require cfg scope req with
    | .error e => ([.requireShared remote req.name], .error e)
    | .ok (_, scope') =>
      let (evs, res) := requireList cfg remote scope' rest
      (.requireShared remote req.name :: evs, res)

/-- Module Resolver `resolve` (spec §4.4): module-cache hit returns the
cached value; otherwise load the Container, resolve every declared
shared dependency in order, invoke the factory for the exposed path and
cache the resulting module.  Every failure leaves the module cache (and
the scope) unchanged. -/
def resolve (cfg : Config) (w : World) (st : State) (r p : String) :
    State × List Event × Except FedError Nat :=
  match lookupKey (r, p) st.modules with
  | some m => (st, [], .ok m)
  | none =>
    let (st₁, evL, cres) := loadContainer w st r
    match cres with
    | .error e => (st₁, evL, .error e)
    | .ok c =>
      match requireList cfg r st₁.scope c.shared with
      | (evS, .error e) => (st₁, evL ++ evS, .error e)
      | (evS, .ok scope') =>
        match lookupKey p c.exposes with
        | none =>
          ({ st₁ with scope := scope' }, evL ++ evS,
            .error (.unknownExposedPath r p))
        | some m =>
          ({ st₁ with
              scope := scope',
              modules := ((r, p), m) :: st₁.modules },
            evL ++ evS ++ [.invoke r p], .ok m)

/-- Application-facing Session operations (spec §4.5/§6). -/
inductive Op where
  | resolveOp (r p : String)
  | registerOp (name loc : String)
  | provideOp (e : SharedEntry)

/-- `registerRemote` (spec §4.1): add or replace the mapping, or reject
a duplicate under the `onDuplicateRemote: "reject"` configuration. -/
def registerRemote (cfg : Config) (st : State) (name loc : String) :
    State × Except FedError Unit :=
  match lookupKey name st.registry with
  | some _ =>
    if cfg.rejectDuplicateRemote then (st, .error (.duplicateRemote name))
    else ({ st with registry :=
        (name, loc) :: st.registry.filter (fun q => q.1 ≠ name) }, .ok ())
  | none => ({ st with registry := (name, loc) :: st.registry }, .ok ())

/-- `provideShared` (spec §4.3 provide): register an instance. -/
def provideShared (st : State) (e : SharedEntry) : State :=
  { st with scope := st.scope ++ [e] }

/-- One Session step; only `resolve` emits events. -/
def step (cfg : Config) (w : World) (st : State) : Op → State × List Event
  | .resolveOp r p =>
    let (st', evs, _) := resolve cfg w st r p
    (st', evs)
  | .registerOp n l => ((registerRemote cfg st n l).1, [])
  | .provideOp e => (provideShared st e, [])

/-- Run a sequence of Session operations, concatenating event traces. -/
def run (cfg : Config) (w : World) (st : State) :
    List Op → State × List Event
  | [] => (st, [])
  | op :: ops =>
    let (st₁, evs₁) := step cfg w st op
    let (st₂, evs₂) := run cfg w st₁ ops
    (st₂, evs₁ ++ evs₂)

/-! ## Concurrent Container Loader (spec §4.2 step 3, §5)

Modelled from the spec: the in-flight-deduplication contract.  Multiple
logical callers interleave `load` calls with asynchronous fetch
completions; a caller whose remote is already in flight attaches to the
pending operation instead of fetching again, and completion delivers the
same Ready-or-Failed result to every attached caller. -/

/-- A finished load: a Ready container or a Failed cause. -/
abbrev LoadResult := Except Nat Container

instance : DecidableEq LoadResult := fun a b =>
  match a, b with
  | .ok x, .ok y =>
    if h : x = y then .isTrue (by rw [h]) else .isFalse (by simp [h])
  | .error x, .error y =>
    if h : x = y then .isTrue (by rw [h]) else .isFalse (by simp [h])
  | .ok _, .error _ => .isFalse (by simp)
  | .error _, .ok _ => .isFalse (by simp)

/-- Loader state: completed cache, plus the in-flight operations with
their attached caller identifiers. -/
structure LoaderState where
  cache    : List (String × LoadResult)
  inflight : List (String × List Nat)

/-- Interleaved loader actions: a caller's `load` call, or the
asynchronous completion of a remote's fetch with its result. -/
inductive LoaderOp where
  | call (cid : Nat) (r : String)
  | finish (r : String) (res : LoadResult)

/-- Observable loader events: a fetch being issued, and a caller
observing a completed (Ready-or-Failed) result. -/
inductive LoaderEvent where
  | fetchStart (r : String)
  | observe (cid : Nat) (r : String) (res : LoadResult)
deriving DecidableEq

/-- Replace the waiter list of an in-flight remote. -/
def addWaiter (r : String) (cid : Nat) :
    List (String × List Nat) → List (String × List Nat)
  | [] => []
  | (r', ws) :: rest =>
    if r' = r then (r', cid :: ws) :: rest
    else (r', ws) :: addWaiter r cid rest

/-- One loader step (spec §4.2): a `call` returns the cached result
immediately, attaches to an in-flight operation, or issues the one
fetch; a `finish` caches the result permanently and delivers it to every
attached caller.  A completion for a remote that is not in flight (or
already cached) is ignored. -/
def loaderStep (st : LoaderState) : LoaderOp → LoaderState × List LoaderEvent
  | .call cid r =>
    match lookupKey r st.cache with
    | some res => (st, [.observe cid r res])
    | none =>
      match lookupKey r st.inflight with
      | some _ => ({ st with inflight := addWaiter r cid st.inflight }, [])
      | none =>
        ({ st with inflight := (r, [cid]) :: st.inflight },
          [.fetchStart r])
  | .finish r res =>
    match lookupKey r st.cache with
    | some _ => (st, [])
    | none =>
      match lookupKey r st.inflight with
      | none => (st, [])
      | some ws =>
        (⟨(r, res) :: st.cache, st.inflight.filter (fun q => q.1 ≠ r)⟩,
          ws.map (fun cid => .observe cid r res))

/-- Run a sequence of interleaved loader actions. -/
def loaderRun (st : LoaderState) :
    List LoaderOp → LoaderState × List LoaderEvent
  | [] => (st, [])
  | op :: ops =>
    let (st₁, evs₁) := loaderStep st op
    let (st₂, evs₂) := loaderRun st₁ ops
    (st₂, evs₁ ++ evs₂)

/-! ## The shipped configuration

Embedded from the source tree: `vite.config.ts` (remote `my-app-one`)
and `vite.config.ts_2` (consumer `my-app-two`), with `package.json`'s
react version `^18.2.0`.  Module values of the two exposed factories
(`./src/exposes/exposeLodash.js`, `./src/exposes/exposeMoment.js`) are
opaque and stand in as identifiers 0 and 1. -/

/-- `shared.react` of `vite.config.ts`: `singleton: true`,
`requiredVersion: 'deps.react'` — the literal string, as written. -/
def reactShared : SharedReq :=
  { name := "react"
    requiredVersion := "deps.react"
    singleton := true
    eager := false
    fallback := none }

/-- `shared['react-dom']` of `vite.config.ts`: `singleton: true`,
`requiredVersion: 'deps["react-dom"]'` — the literal string. -/
def reactDomShared : SharedReq :=
  { name := "react-dom"
    requiredVersion := "deps[\"react-dom\"]"
    singleton := true
    eager := false
    fallback := none }

/-- The `my-app-one` remote of `vite.config.ts`: name, the two exposed
paths and the two shared singleton requirements. -/
def myAppOne : Container :=
  { name := "my-app-one"
    exposes := [("./lodash", 0), ("./moment", 1)]
    shared := [reactShared, reactDomShared] }

/-- The react version `^18.2.0` of `package.json` instantiated at its
minimum, 18.2.0. -/
def reactVersion : Version := ⟨18, 2, 0⟩

/-- The consumer registry of `vite.config.ts_2`: remote `my_app_one` at
the remote-entry URL. -/
def myAppTwoRegistry : List (String × String) :=
  [("my_app_one", "http://localhost:5173/dist/assets/remoteEntry.js")]

/-! ## Basic lemmas: counting and lookup -/

/-- Occurrences of an element in a list. -/
def countEv {α : Type} [DecidableEq α] (e : α) : List α → Nat
  | [] => 0
  | x :: xs => (if x = e then 1 else 0) + countEv e xs

theorem countEv_append {α : Type} [DecidableEq α] (e : α) (l₁ l₂ : List α) :
    countEv e (l₁ ++ l₂) = countEv e l₁ + countEv e l₂ := by
  induction l₁ with
  | nil => simp [countEv]
  | cons x xs ih => simp [countEv, ih]; omega

theorem countEv_eq_zero {α : Type} [DecidableEq α] {e : α} {l : List α}
    (h : e ∉ l) : countEv e l = 0 := by
  induction l with
  | nil => rfl
  | cons x xs ih =>
    simp only [List.mem_cons, not_or] at h
    simp [countEv, Ne.symm h.1, ih h.2]

theorem lookupKey_eq_none_iff {α β : Type} [DecidableEq α] (k : α)
    (l : List (α × β)) : lookupKey k l = none ↔ k ∉ l.map Prod.fst := by
  induction l with
  | nil => simp [lookupKey]
  | cons q rest ih =>
    obtain ⟨k', v⟩ := q
    by_cases h : k = k' <;> simp [lookupKey, h, ih]

theorem lookupKey_cons_ne {α β : Type} [DecidableEq α] {k k' : α} (v : β)
    (l : List (α × β)) (h : k ≠ k') :
    lookupKey k ((k', v) :: l) = lookupKey k l := by
  simp [lookupKey, h]

theorem lookupKey_filter_ne {α β : Type} [DecidableEq α] (k k' : α)
    (l : List (α × β)) (h : k ≠ k') :
    lookupKey k (l.filter (fun q => q.1 ≠ k')) = lookupKey k l := by
  induction l with
  | nil => rfl
  | cons q rest ih =>
    obtain ⟨a, b⟩ := q
    rw [List.filter_cons]
    by_cases ha : a = k'
    · subst ha
      rw [if_neg (by simp), lookupKey_cons_ne b rest h]
      exact ih
    · rw [if_pos (by simp [ha])]
      by_cases hk : k = a
      · subst hk
        simp [lookupKey]
      · rw [lookupKey_cons_ne b _ hk, lookupKey_cons_ne b _ hk]
        exact ih

theorem lookupKey_invalidate (st : State) (r : String) :
    lookupKey r (invalidate st r).containers = none := by
  show lookupKey r (st.containers.filter (fun p => p.1 ≠ r)) = none
  induction st.containers with
  | nil => rfl
  | cons q rest ih =>
    obtain ⟨a, b⟩ := q
    rw [List.filter_cons]
    by_cases ha : a = r
    · subst ha
      rw [if_neg (by simp)]
      exact ih
    · rw [if_pos (by simp [ha]), lookupKey_cons_ne b _ (fun hh => ha hh.symm)]
      exact ih

/-! ## Lemmas about the Shared Scope -/

theorem pickHighest_spec (l : List SharedEntry) :
    (l = [] ∧ pickHighest l = none) ∨
    (∃ e, pickHighest l = some e ∧ e ∈ l ∧
      ∀ x ∈ l, Version.ltb e.version x.version = false) := by
  induction l with
  | nil => exact Or.inl ⟨rfl, rfl⟩
  | cons x xs ih =>
    right
    rcases ih with ⟨hnil, hnone⟩ | ⟨b, hb, hmem, hmax⟩
    · subst hnil
      refine ⟨x, by simp [pickHighest], List.mem_singleton.mpr rfl, ?_⟩
      intro y hy
      rw [List.mem_singleton.mp hy]
      exact Version.ltb_irrefl _
    · by_cases hlt : Version.ltb x.version b.version = true
      · refine ⟨b, by simp [pickHighest, hb, hlt],
          List.mem_cons_of_mem x hmem, ?_⟩
        intro y hy
        rcases List.mem_cons.mp hy with hyx | hyxs
        · subst hyx; exact Version.ltb_asymm hlt
        · exact hmax y hyxs
      · refine ⟨x, by simp [pickHighest, hb, hlt], List.mem_cons_self x xs, ?_⟩
        intro y hy
        rcases List.mem_cons.mp hy with hyx | hyxs
        · subst hyx; exact Version.ltb_irrefl _
        · exact Version.ltb_not_trans (Bool.eq_false_iff.mpr hlt)
            (hmax y hyxs)

theorem mem_candidates {scope : List SharedEntry} {req : SharedReq}
    {e : SharedEntry} :
    e ∈ candidates scope req ↔ e ∈ scope ∧ e.name = req.name ∧
      rangeSatisfies req.requiredVersion e.version = true := by
  simp [candidates, List.mem_filter]

/-! ## Lemmas about the Container Loader and the Resolver -/

/-- Exhaustive case characterization of `loadContainer`. -/
theorem loadContainer_cases (w : World) (st : State) (r : String) :
    (∃ res, lookupKey r st.containers = some res ∧
      loadContainer w st r = (st, [], res)) ∨
    (lookupKey r st.containers = none ∧
      ((lookupKey r st.registry = none ∧
        loadContainer w st r = (st, [], .error (.unknownRemote r))) ∨
      (∃ loc c, lookupKey r st.registry = some loc ∧ w.fetch loc = .ok c ∧
        loadContainer w st r =
          ({ st with containers := (r, .ok c) :: st.containers },
            [.fetch r], .ok c)) ∨
      (∃ loc cause, lookupKey r st.registry = some loc ∧
        w.fetch loc = .error cause ∧
        loadContainer w st r =
          ({ st with containers :=
              (r, .error (.remoteLoad cause)) :: st.containers },
            [.fetch r], .error (.remoteLoad cause))))) := by
  cases hc : lookupKey r st.containers with
  | some res => exact Or.inl ⟨res, rfl, by simp [loadContainer, hc]⟩
  | none =>
    refine Or.inr ⟨rfl, ?_⟩
    cases hreg : lookupKey r st.registry with
    | none => exact Or.inl ⟨rfl, by simp [loadContainer, hc, hreg]⟩
    | some loc =>
      cases hf : w.fetch loc with
      | ok c =>
        exact Or.inr (Or.inl ⟨loc, c, rfl, hf,
          by simp [loadContainer, hc, hreg, hf]⟩)
      | error cause =>
        exact Or.inr (Or.inr ⟨loc, cause, rfl, hf,
          by simp [loadContainer, hc, hreg, hf]⟩)

/-- The events of `requireList` are the declaration's `requireShared`
events, in declaration order, cut off at the first failure; a successful
result emits the complete declaration list. -/
theorem requireList_events (cfg : Config) (remote : String) :
    ∀ (reqs : List SharedReq) (scope : List SharedEntry)
      (evs : List Event) (res : Except FedError (List SharedEntry)),
      requireList cfg remote scope reqs = (evs, res) →
      ∃ n, n ≤ reqs.length ∧
        evs = (reqs.map (fun q => Event.requireShared remote q.name)).take n ∧
        (∀ s', res = .ok s' → n = reqs.length) := by
  intro reqs
  induction reqs with
  | nil =>
    intro scope evs res h
    simp only [requireList] at h
    obtain ⟨he, hr⟩ := Prod.mk.injEq .. ▸ h
    refine ⟨0, Nat.le_refl 0, by simp [← he], ?_⟩
    intro s' _
    rfl
  | cons req rest ih =>
    intro scope evs res h
    simp only [requireList] at h
    cases hreq : require cfg scope req with
    | error e =>
      rw [hreq] at h
      obtain ⟨he, hr⟩ := Prod.mk.injEq .. ▸ h
      refine ⟨1, by simp, by simp [← he], ?_⟩
      intro s' hs'
      rw [← hr] at hs'
      exact absurd hs' (by simp)
    | ok pr =>
      obtain ⟨i, scope'⟩ := pr
      simp only [hreq] at h
      obtain ⟨he, hr⟩ := Prod.mk.injEq .. ▸ h
      obtain ⟨n, hn, hevs, hok⟩ := ih scope'
        (requireList cfg remote scope' rest).1
        (requireList cfg remote scope' rest).2 rfl
      refine ⟨n + 1, by simpa using hn, ?_, ?_⟩
      · rw [← he, hevs]
        simp
      · intro s' hs'
        rw [← hr] at hs'
        simpa using hok s' hs'

/-- Every event `requireList` emits is a `requireShared` event for the
given remote. -/
theorem requireList_events_shape {cfg : Config} {remote : String}
    {reqs : List SharedReq} {scope : List SharedEntry} {evs : List Event}
    {res : Except FedError (List SharedEntry)}
    (h : requireList cfg remote scope reqs = (evs, res)) :
    ∀ e ∈ evs, ∃ d, e = Event.requireShared remote d := by
  obtain ⟨n, _, hevs, _⟩ := requireList_events cfg remote reqs scope evs res h
  intro e he
  rw [hevs] at he
  obtain ⟨q, _, hq⟩ := List.mem_map.mp (List.mem_of_mem_take he)
  exact ⟨q.name, hq.symm⟩

/-- 1 when the Container cache holds an entry for `r`, else 0. -/
def containerFlag (st : State) (r : String) : Nat :=
  if (lookupKey r st.containers).isSome then 1 else 0

/-- 1 when the module cache holds an entry for `(r, p)`, else 0. -/
def moduleFlag (st : State) (r p : String) : Nat :=
  if (lookupKey (r, p) st.modules).isSome then 1 else 0

theorem containerFlag_le_one (st : State) (r : String) :
    containerFlag st r ≤ 1 := by
  unfold containerFlag
  split <;> simp

theorem moduleFlag_le_one (st : State) (r p : String) :
    moduleFlag st r p ≤ 1 := by
  unfold moduleFlag
  split <;> simp

/-- `loadContainer` never touches the module cache. -/
theorem loadContainer_modules {w : World} {st st₁ : State} {r : String}
    {evL : List Event} {cres : Except FedError Container}
    (h : loadContainer w st r = (st₁, evL, cres)) :
    st₁.modules = st.modules := by
  rcases loadContainer_cases w st r with ⟨res, _, he⟩ |
    ⟨_, ⟨_, he⟩ | ⟨loc, c, _, _, he⟩ | ⟨loc, cause, _, _, he⟩⟩ <;>
    rw [he] at h <;>
    obtain ⟨h1, _⟩ := Prod.mk.injEq .. ▸ h <;> rw [← h1]

/-- `loadContainer` never touches the Shared Scope. -/
theorem loadContainer_scope {w : World} {st st₁ : State} {r : String}
    {evL : List Event} {cres : Except FedError Container}
    (h : loadContainer w st r = (st₁, evL, cres)) :
    st₁.scope = st.scope := by
  rcases loadContainer_cases w st r with ⟨res, _, he⟩ |
    ⟨_, ⟨_, he⟩ | ⟨loc, c, _, _, he⟩ | ⟨loc, cause, _, _, he⟩⟩ <;>
    rw [he] at h <;>
    obtain ⟨h1, _⟩ := Prod.mk.injEq .. ▸ h <;> rw [← h1]

/-- `loadContainer` emits no events beyond the (at most one) fetch. -/
theorem loadContainer_events {w : World} {st st₁ : State} {r : String}
    {evL : List Event} {cres : Except FedError Container}
    (h : loadContainer w st r = (st₁, evL, cres)) :
    evL = [] ∨ evL = [Event.fetch r] := by
  rcases loadContainer_cases w st r with ⟨res, _, he⟩ |
    ⟨_, ⟨_, he⟩ | ⟨loc, c, _, _, he⟩ | ⟨loc, cause, _, _, he⟩⟩ <;>
    rw [he] at h <;>
    obtain ⟨_, h2⟩ := Prod.mk.injEq .. ▸ h <;>
    obtain ⟨h3, _⟩ := Prod.mk.injEq .. ▸ h2
  · exact Or.inl h3.symm
  · exact Or.inl h3.symm
  · exact Or.inr h3.symm
  · exact Or.inr h3.symm

/-- Cached containers survive `loadContainer` unchanged. -/
theorem loadContainer_preserves {w : World} {st st₁ : State} {r : String}
    {evL : List Event} {cres : Except FedError Container}
    (h : loadContainer w st r = (st₁, evL, cres)) (k : String)
    (x : Except FedError Container)
    (hk : lookupKey k st.containers = some x) :
    lookupKey k st₁.containers = some x := by
  rcases loadContainer_cases w st r with ⟨res, _, he⟩ | ⟨hc, hrest⟩
  · rw [he] at h
    obtain ⟨h1, _⟩ := Prod.mk.injEq .. ▸ h
    rw [← h1]
    exact hk
  · have hne : k ≠ r := by
      intro hkr
      rw [hkr, hc] at hk
      exact Option.noConfusion hk
    rcases hrest with ⟨_, he⟩ | ⟨loc, c, _, _, he⟩ | ⟨loc, cause, _, _, he⟩ <;>
      rw [he] at h <;>
      obtain ⟨h1, _⟩ := Prod.mk.injEq .. ▸ h <;> rw [← h1]
    · exact hk
    · show lookupKey k ((r, Except.ok c) :: st.containers) = some x
      rwa [lookupKey_cons_ne _ _ hne]
    · show lookupKey k
        ((r, Except.error (FedError.remoteLoad cause)) :: st.containers) =
          some x
      rwa [lookupKey_cons_ne _ _ hne]

/-- Fetch-counting bound for one `loadContainer` call: a fetch of `r` is
emitted only when `r` was not cached, and afterwards `r` is cached. -/
theorem loadContainer_fetch_bound {w : World} {st st₁ : State}
    {r₀ : String} {evL : List Event} {cres : Except FedError Container}
    (h : loadContainer w st r₀ = (st₁, evL, cres)) (r : String) :
    countEv (Event.fetch r) evL + containerFlag st r ≤ containerFlag st₁ r := by
  rcases loadContainer_cases w st r₀ with ⟨res, _, he⟩ |
    ⟨hc, ⟨_, he⟩ | ⟨loc, c, _, _, he⟩ | ⟨loc, cause, _, _, he⟩⟩ <;>
    rw [he] at h <;>
    obtain ⟨h1, h2⟩ := Prod.mk.injEq .. ▸ h <;>
    obtain ⟨h3, _⟩ := Prod.mk.injEq .. ▸ h2 <;>
    rw [← h1, ← h3]
  · simp [countEv]
  · simp [countEv]
  · by_cases hrr : r = r₀
    · subst hrr
      simp [countEv, containerFlag, hc, lookupKey_cons_self]
    · have : Event.fetch r₀ ≠ Event.fetch r := by simp [Ne.symm hrr]
      simp only [containerFlag]
      rw [lookupKey_cons_ne _ _ hrr]
      simp [countEv, this]
  · by_cases hrr : r = r₀
    · subst hrr
      simp [countEv, containerFlag, hc, lookupKey_cons_self]
    · have : Event.fetch r₀ ≠ Event.fetch r := by simp [Ne.symm hrr]
      simp only [containerFlag]
      rw [lookupKey_cons_ne _ _ hrr]
      simp [countEv, this]

/-- Exhaustive case characterization of `resolve`, following spec §4.4:
cache hit; Container load failure; shared-dependency failure; unknown
exposed path; success. -/
theorem resolve_cases (cfg : Config) (w : World) (st : State)
    (r p : String) :
    (∃ m, lookupKey (r, p) st.modules = some m ∧
      resolve cfg w st r p = (st, [], .ok m)) ∨
    (lookupKey (r, p) st.modules = none ∧
      ∃ st₁ evL,
        ((∃ e, loadContainer w st r = (st₁, evL, .error e) ∧
          resolve cfg w st r p = (st₁, evL, .error e)) ∨
        (∃ c, loadContainer w st r = (st₁, evL, .ok c) ∧
          ((∃ evS e, requireList cfg r st₁.scope c.shared = (evS, .error e) ∧
            resolve cfg w st r p = (st₁, evL ++ evS, .error e)) ∨
          (∃ evS scope₂,
            requireList cfg r st₁.scope c.shared = (evS, .ok scope₂) ∧
            ((lookupKey p c.exposes = none ∧
              resolve cfg w st r p = ({ st₁ with scope := scope₂ },
                evL ++ evS, .error (.unknownExposedPath r p))) ∨
            (∃ m, lookupKey p c.exposes = some m ∧
              resolve cfg w st r p =
                ({ st₁ with
                    scope := scope₂,
                    modules := ((r, p), m) :: st₁.modules },
                  evL ++ evS ++ [.invoke r p], .ok m)))))))) := by
  cases hm : lookupKey (r, p) st.modules with
  | some m => exact Or.inl ⟨m, rfl, by simp [resolve, hm]⟩
  | none =>
    refine Or.inr ⟨rfl, ?_⟩
    rcases hlc : loadContainer w st r with ⟨st₁, evL, cres⟩
    refine ⟨st₁, evL, ?_⟩
    cases cres with
    | error e =>
      exact Or.inl ⟨e, rfl, by simp [resolve, hm, hlc]⟩
    | ok c =>
      refine Or.inr ⟨c, rfl, ?_⟩
      rcases hrl : requireList cfg r st₁.scope c.shared with ⟨evS, sres⟩
      cases sres with
      | error e =>
        exact Or.inl ⟨evS, e, rfl, by simp [resolve, hm, hlc, hrl]⟩
      | ok scope₂ =>
        refine Or.inr ⟨evS, scope₂, rfl, ?_⟩
        cases hp : lookupKey p c.exposes with
        | none =>
          exact Or.inl ⟨rfl, by simp [resolve, hm, hlc, hrl, hp]⟩
        | some m =>
          exact Or.inr ⟨m, rfl, by simp [resolve, hm, hlc, hrl, hp]⟩

/-- `requireList` emits no fetch events. -/
theorem requireList_no_fetch {cfg : Config} {remote : String}
    {reqs : List SharedReq} {scope : List SharedEntry} {evs : List Event}
    {res : Except FedError (List SharedEntry)}
    (h : requireList cfg remote scope reqs = (evs, res)) (r : String) :
    countEv (Event.fetch r) evs = 0 := by
  refine countEv_eq_zero (fun hmem => ?_)
  obtain ⟨d, hd⟩ := requireList_events_shape h _ hmem
  exact Event.noConfusion hd

/-- `requireList` emits no factory-invocation events. -/
theorem requireList_no_invoke {cfg : Config} {remote : String}
    {reqs : List SharedReq} {scope : List SharedEntry} {evs : List Event}
    {res : Except FedError (List SharedEntry)}
    (h : requireList cfg remote scope reqs = (evs, res)) (r p : String) :
    countEv (Event.invoke r p) evs = 0 := by
  refine countEv_eq_zero (fun hmem => ?_)
  obtain ⟨d, hd⟩ := requireList_events_shape h _ hmem
  exact Event.noConfusion hd

/-- `loadContainer` emits no factory-invocation events. -/
theorem loadContainer_no_invoke {w : World} {st st₁ : State} {r₀ : String}
    {evL : List Event} {cres : Except FedError Container}
    (h : loadContainer w st r₀ = (st₁, evL, cres)) (r p : String) :
    countEv (Event.invoke r p) evL = 0 := by
  rcases loadContainer_events h with he | he <;> subst he <;>
    simp [countEv]

/-- A successful `resolve` leaves the module cached under `(r, p)`. -/
theorem resolve_ok_module {cfg : Config} {w : World} {st st' : State}
    {r p : String} {evs : List Event} {m : Nat}
    (h : resolve cfg w st r p = (st', evs, .ok m)) :
    lookupKey (r, p) st'.modules = some m := by
  rcases resolve_cases cfg w st r p with ⟨m', hm, hre⟩ |
    ⟨hm, st₁, evL, ⟨e, hlc, hre⟩ | ⟨c, hlc, hcases⟩⟩
  · rw [hre] at h
    obtain ⟨h1, h2⟩ := Prod.mk.injEq .. ▸ h
    obtain ⟨_, h3⟩ := Prod.mk.injEq .. ▸ h2
    rw [← h1]
    rw [Except.ok.injEq] at h3
    rw [← h3]
    exact hm
  · rw [hre] at h
    obtain ⟨_, h2⟩ := Prod.mk.injEq .. ▸ h
    obtain ⟨_, h3⟩ := Prod.mk.injEq .. ▸ h2
    exact Except.noConfusion h3
  · rcases hcases with ⟨evS, e, hrl, hre⟩ |
      ⟨evS, scope₂, hrl, ⟨hp, hre⟩ | ⟨m', hp, hre⟩⟩
    · rw [hre] at h
      obtain ⟨_, h2⟩ := Prod.mk.injEq .. ▸ h
      obtain ⟨_, h3⟩ := Prod.mk.injEq .. ▸ h2
      exact Except.noConfusion h3
    · rw [hre] at h
      obtain ⟨_, h2⟩ := Prod.mk.injEq .. ▸ h
      obtain ⟨_, h3⟩ := Prod.mk.injEq .. ▸ h2
      exact Except.noConfusion h3
    · rw [hre] at h
      obtain ⟨h1, h2⟩ := Prod.mk.injEq .. ▸ h
      obtain ⟨_, h3⟩ := Prod.mk.injEq .. ▸ h2
      rw [Except.ok.injEq] at h3
      rw [← h1, ← h3]
      exact lookupKey_cons_self (r, p) m' st₁.modules

/-- Every failing `resolve` leaves the module cache untouched: no
partial module is ever materialized. -/
theorem resolve_error_modules {cfg : Config} {w : World} {st st' : State}
    {r p : String} {evs : List Event} {e : FedError}
    (h : resolve cfg w st r p = (st', evs, .error e)) :
    st'.modules = st.modules := by
  rcases resolve_cases cfg w st r p with ⟨m', hm, hre⟩ |
    ⟨hm, st₁, evL, ⟨e', hlc, hre⟩ | ⟨c, hlc, hcases⟩⟩
  · rw [hre] at h
    obtain ⟨_, h2⟩ := Prod.mk.injEq .. ▸ h
    obtain ⟨_, h3⟩ := Prod.mk.injEq .. ▸ h2
    exact Except.noConfusion h3
  · rw [hre] at h
    obtain ⟨h1, _⟩ := Prod.mk.injEq .. ▸ h
    rw [← h1]
    exact loadContainer_modules hlc
  · rcases hcases with ⟨evS, e', hrl, hre⟩ |
      ⟨evS, scope₂, hrl, ⟨hp, hre⟩ | ⟨m', hp, hre⟩⟩
    · rw [hre] at h
      obtain ⟨h1, _⟩ := Prod.mk.injEq .. ▸ h
      rw [← h1]
      exact loadContainer_modules hlc
    · rw [hre] at h
      obtain ⟨h1, _⟩ := Prod.mk.injEq .. ▸ h
      rw [← h1]
      show st₁.modules = st.modules
      exact loadContainer_modules hlc
    · rw [hre] at h
      obtain ⟨_, h2⟩ := Prod.mk.injEq .. ▸ h
      obtain ⟨_, h3⟩ := Prod.mk.injEq .. ▸ h2
      exact Except.noConfusion h3

/-- Fetch-counting bound for one `resolve` call: a fetch of `r` happens
only when `r`'s Container was not cached, and afterwards it is. -/
theorem resolve_fetch_bound {cfg : Config} {w : World} {st st' : State}
    {r₀ p₀ : String} {evs : List Event} {res : Except FedError Nat}
    (h : resolve cfg w st r₀ p₀ = (st', evs, res)) (r : String) :
    countEv (Event.fetch r) evs + containerFlag st r ≤ containerFlag st' r := by
  rcases resolve_cases cfg w st r₀ p₀ with ⟨m', hm, hre⟩ |
    ⟨hm, st₁, evL, ⟨e, hlc, hre⟩ | ⟨c, hlc, hcases⟩⟩
  · rw [hre] at h
    obtain ⟨h1, h2⟩ := Prod.mk.injEq .. ▸ h
    obtain ⟨h3, _⟩ := Prod.mk.injEq .. ▸ h2
    rw [← h1, ← h3]
    simp [countEv]
  · rw [hre] at h
    obtain ⟨h1, h2⟩ := Prod.mk.injEq .. ▸ h
    obtain ⟨h3, _⟩ := Prod.mk.injEq .. ▸ h2
    rw [← h1, ← h3]
    exact loadContainer_fetch_bound hlc r
  · rcases hcases with ⟨evS, e, hrl, hre⟩ |
      ⟨evS, scope₂, hrl, ⟨hp, hre⟩ | ⟨m', hp, hre⟩⟩ <;>
      rw [hre] at h <;>
      obtain ⟨h1, h2⟩ := Prod.mk.injEq .. ▸ h <;>
      obtain ⟨h3, _⟩ := Prod.mk.injEq .. ▸ h2 <;>
      rw [← h1, ← h3]
    · rw [countEv_append, requireList_no_fetch hrl r]
      simpa using loadContainer_fetch_bound hlc r
    · have hfl : containerFlag { st₁ with scope := scope₂ } r =
        containerFlag st₁ r := rfl
      rw [hfl, countEv_append, requireList_no_fetch hrl r]
      simpa using loadContainer_fetch_bound hlc r
    · have hfl : containerFlag
        { st₁ with
            scope := scope₂, modules := ((r₀, p₀), m') :: st₁.modules } r =
          containerFlag st₁ r := rfl
      rw [hfl, countEv_append, countEv_append, requireList_no_fetch hrl r]
      have hone : countEv (Event.fetch r) [Event.invoke r₀ p₀] = 0 := by
        simp [countEv]
      rw [hone]
      simpa using loadContainer_fetch_bound hlc r

/-- Invocation-counting bound for one `resolve` call: the factory for
`(r, p)` runs only when `(r, p)` was not in the module cache, and
afterwards it is. -/
theorem resolve_invoke_bound {cfg : Config} {w : World} {st st' : State}
    {r₀ p₀ : String} {evs : List Event} {res : Except FedError Nat}
    (h : resolve cfg w st r₀ p₀ = (st', evs, res)) (r p : String) :
    countEv (Event.invoke r p) evs + moduleFlag st r p ≤
      moduleFlag st' r p := by
  rcases resolve_cases cfg w st r₀ p₀ with ⟨m', hm, hre⟩ |
    ⟨hm, st₁, evL, ⟨e, hlc, hre⟩ | ⟨c, hlc, hcases⟩⟩
  · rw [hre] at h
    obtain ⟨h1, h2⟩ := Prod.mk.injEq .. ▸ h
    obtain ⟨h3, _⟩ := Prod.mk.injEq .. ▸ h2
    rw [← h1, ← h3]
    simp [countEv]
  · rw [hre] at h
    obtain ⟨h1, h2⟩ := Prod.mk.injEq .. ▸ h
    obtain ⟨h3, _⟩ := Prod.mk.injEq .. ▸ h2
    rw [← h1, ← h3]
    have hfl : moduleFlag st₁ r p = moduleFlag st r p := by
      unfold moduleFlag
      rw [loadContainer_modules hlc]
    rw [loadContainer_no_invoke hlc r p, hfl]
    omega
  · rcases hcases with ⟨evS, e, hrl, hre⟩ |
      ⟨evS, scope₂, hrl, ⟨hp, hre⟩ | ⟨m', hp, hre⟩⟩ <;>
      rw [hre] at h <;>
      obtain ⟨h1, h2⟩ := Prod.mk.injEq .. ▸ h <;>
      obtain ⟨h3, _⟩ := Prod.mk.injEq .. ▸ h2 <;>
      rw [← h1, ← h3] <;>
      have hfl : moduleFlag st₁ r p = moduleFlag st r p := by
        unfold moduleFlag
        rw [loadContainer_modules hlc]
    · rw [countEv_append, requireList_no_invoke hrl r p,
        loadContainer_no_invoke hlc r p, hfl]
      omega
    · have hfl2 : moduleFlag { st₁ with scope := scope₂ } r p =
        moduleFlag st₁ r p := rfl
      rw [hfl2, countEv_append, requireList_no_invoke hrl r p,
        loadContainer_no_invoke hlc r p, hfl]
      omega
    · rw [countEv_append, countEv_append, requireList_no_invoke hrl r p,
        loadContainer_no_invoke hlc r p]
      by_cases heq : r₀ = r ∧ p₀ = p
      · obtain ⟨hr, hp'⟩ := heq
        subst hr
        subst hp'
        have hz : moduleFlag st r₀ p₀ = 0 := by
          unfold moduleFlag
          rw [hm]
          rfl
        have ho : moduleFlag
            { st₁ with
                scope := scope₂,
                modules := ((r₀, p₀), m') :: st₁.modules } r₀ p₀ = 1 := by
          unfold moduleFlag
          rw [show lookupKey (r₀, p₀)
            (((r₀, p₀), m') :: st₁.modules) = some m' from
            lookupKey_cons_self (r₀, p₀) m' st₁.modules]
          rfl
        rw [hz, ho]
        simp [countEv]
      · have hne : Event.invoke r₀ p₀ ≠ Event.invoke r p := by
          intro hcon
          injection hcon with ha hb
          exact heq ⟨ha, hb⟩
        have hz : countEv (Event.invoke r p) [Event.invoke r₀ p₀] = 0 := by
          simp [countEv, hne]
        have hne2 : (r, p) ≠ (r₀, p₀) := by
          intro hcon
          obtain ⟨ha, hb⟩ := Prod.mk.injEq .. ▸ hcon
          exact heq ⟨ha.symm, hb.symm⟩
        have hfl3 : moduleFlag
            { st₁ with
                scope := scope₂,
                modules := ((r₀, p₀), m') :: st₁.modules } r p =
              moduleFlag st₁ r p := by
          unfold moduleFlag
          rw [show lookupKey (r, p) (((r₀, p₀), m') :: st₁.modules) =
            lookupKey (r, p) st₁.modules from
            lookupKey_cons_ne _ _ hne2]
        rw [hz, hfl3, hfl]
        simp

/-- `loadContainer` grows the Container cache by at most the one entry
for `r`, and only when `r` was absent. -/
theorem loadContainer_containers {w : World} {st st₁ : State} {r : String}
    {evL : List Event} {cres : Except FedError Container}
    (h : loadContainer w st r = (st₁, evL, cres)) :
    st₁.containers = st.containers ∨
      (lookupKey r st.containers = none ∧
        ∃ x, st₁.containers = (r, x) :: st.containers) := by
  rcases loadContainer_cases w st r with ⟨res, _, he⟩ | ⟨hc, hrest⟩
  · rw [he] at h
    obtain ⟨h1, _⟩ := Prod.mk.injEq .. ▸ h
    exact Or.inl (by rw [← h1])
  · rcases hrest with ⟨_, he⟩ | ⟨loc, c, _, _, he⟩ | ⟨loc, cause, _, _, he⟩ <;>
      rw [he] at h <;>
      obtain ⟨h1, _⟩ := Prod.mk.injEq .. ▸ h
    · exact Or.inl (by rw [← h1])
    · exact Or.inr ⟨hc, Except.ok c, by rw [← h1]⟩
    · exact Or.inr ⟨hc, Except.error (FedError.remoteLoad cause),
        by rw [← h1]⟩

/-- `resolve` grows the Container cache by at most the one entry for its
remote, and only when that remote was absent. -/
theorem resolve_containers {cfg : Config} {w : World} {st st' : State}
    {r p : String} {evs : List Event} {res : Except FedError Nat}
    (h : resolve cfg w st r p = (st', evs, res)) :
    st'.containers = st.containers ∨
      (lookupKey r st.containers = none ∧
        ∃ x, st'.containers = (r, x) :: st.containers) := by
  rcases resolve_cases cfg w st r p with ⟨m', hm, hre⟩ |
    ⟨hm, st₁, evL, ⟨e, hlc, hre⟩ | ⟨c, hlc, hcases⟩⟩
  · rw [hre] at h
    obtain ⟨h1, _⟩ := Prod.mk.injEq .. ▸ h
    exact Or.inl (by rw [← h1])
  · rw [hre] at h
    obtain ⟨h1, _⟩ := Prod.mk.injEq .. ▸ h
    rw [← h1]
    exact loadContainer_containers hlc
  · rcases hcases with ⟨evS, e, hrl, hre⟩ |
      ⟨evS, scope₂, hrl, ⟨hp, hre⟩ | ⟨m', hp, hre⟩⟩ <;>
      rw [hre] at h <;>
      obtain ⟨h1, _⟩ := Prod.mk.injEq .. ▸ h <;>
      rw [← h1]
    · exact loadContainer_containers hlc
    · show st₁.containers = st.containers ∨ _
      exact loadContainer_containers hlc
    · show st₁.containers = st.containers ∨ _
      exact loadContainer_containers hlc

/-- Per-step fetch bound over the whole Session interface. -/
theorem step_fetch_bound (cfg : Config) (w : World) (st : State) (op : Op)
    (r : String) :
    countEv (Event.fetch r) (step cfg w st op).2 + containerFlag st r ≤
      containerFlag (step cfg w st op).1 r := by
  cases op with
  | resolveOp r₀ p₀ =>
    rcases hre : resolve cfg w st r₀ p₀ with ⟨st', evs, res⟩
    have hb := resolve_fetch_bound hre r
    simp only [step, hre]
    exact hb
  | registerOp n l =>
    have h1 : ((registerRemote cfg st n l).1).containers = st.containers := by
      unfold registerRemote
      cases lookupKey n st.registry
      · simp
      · simp only []
        split <;> simp
    simp only [step, countEv, containerFlag, h1]
    omega
  | provideOp e =>
    simp only [step, countEv, containerFlag, provideShared]
    omega

/-- Per-step invocation bound over the whole Session interface. -/
theorem step_invoke_bound (cfg : Config) (w : World) (st : State) (op : Op)
    (r p : String) :
    countEv (Event.invoke r p) (step cfg w st op).2 + moduleFlag st r p ≤
      moduleFlag (step cfg w st op).1 r p := by
  cases op with
  | resolveOp r₀ p₀ =>
    rcases hre : resolve cfg w st r₀ p₀ with ⟨st', evs, res⟩
    have hb := resolve_invoke_bound hre r p
    simp only [step, hre]
    exact hb
  | registerOp n l =>
    have h1 : ((registerRemote cfg st n l).1).modules = st.modules := by
      unfold registerRemote
      cases lookupKey n st.registry
      · simp
      · simp only []
        split <;> simp
    simp only [step, countEv, moduleFlag, h1]
    omega
  | provideOp e =>
    simp only [step, countEv, moduleFlag, provideShared]
    omega

/-- Whole-run fetch bound: the fetch count of a remote plus its initial
cache flag never exceeds its final cache flag. -/
theorem run_fetch_bound (cfg : Config) (w : World) (r : String) :
    ∀ (ops : List Op) (st : State),
      countEv (Event.fetch r) (run cfg w st ops).2 + containerFlag st r ≤
        containerFlag (run cfg w st ops).1 r := by
  intro ops
  induction ops with
  | nil =>
    intro st
    simp [run, countEv]
  | cons op rest ih =>
    intro st
    have h1 := step_fetch_bound cfg w st op r
    have h2 := ih (step cfg w st op).1
    simp only [run, countEv_append]
    omega

/-- Whole-run invocation bound. -/
theorem run_invoke_bound (cfg : Config) (w : World) (r p : String) :
    ∀ (ops : List Op) (st : State),
      countEv (Event.invoke r p) (run cfg w st ops).2 + moduleFlag st r p ≤
        moduleFlag (run cfg w st ops).1 r p := by
  intro ops
  induction ops with
  | nil =>
    intro st
    simp [run, countEv]
  | cons op rest ih =>
    intro st
    have h1 := step_invoke_bound cfg w st op r p
    have h2 := ih (step cfg w st op).1
    simp only [run, countEv_append]
    omega

/-- Any step keeps the Container cache's keys duplicate-free. -/
theorem step_nodup (cfg : Config) (w : World) (st : State) (op : Op)
    (h : (st.containers.map Prod.fst).Nodup) :
    (((step cfg w st op).1.containers).map Prod.fst).Nodup := by
  cases op with
  | resolveOp r₀ p₀ =>
    rcases hre : resolve cfg w st r₀ p₀ with ⟨st', evs, res⟩
    simp only [step, hre]
    rcases resolve_containers hre with hsame | ⟨hnone, x, hcons⟩
    · rwa [hsame]
    · rw [hcons]
      simp only [List.map_cons, List.nodup_cons]
      exact ⟨(lookupKey_eq_none_iff r₀ st.containers).mp hnone, h⟩
  | registerOp n l =>
    have h1 : ((registerRemote cfg st n l).1).containers = st.containers := by
      unfold registerRemote
      cases lookupKey n st.registry
      · simp
      · simp only []
        split <;> simp
    simp only [step, h1]
    exact h
  | provideOp e =>
    simpa [step, provideShared] using h

/-- A whole run keeps the Container cache's keys duplicate-free: at most
one Container per remote name. -/
theorem run_nodup (cfg : Config) (w : World) :
    ∀ (ops : List Op) (st : State),
      (st.containers.map Prod.fst).Nodup →
      (((run cfg w st ops).1.containers).map Prod.fst).Nodup := by
  intro ops
  induction ops with
  | nil =>
    intro st h
    simpa [run] using h
  | cons op rest ih =>
    intro st h
    simp only [run]
    exact ih _ (step_nodup cfg w st op h)

/-! ## Lemmas about the concurrent loader -/

/-- 1 when remote `r` is cached or in flight, else 0. -/
def loaderFlag (st : LoaderState) (r : String) : Nat :=
  if (lookupKey r st.cache).isSome || (lookupKey r st.inflight).isSome
  then 1 else 0

theorem lookupKey_addWaiter (k r : String) (cid : Nat)
    (l : List (String × List Nat)) :
    (lookupKey k (addWaiter r cid l)).isSome = (lookupKey k l).isSome := by
  induction l with
  | nil => rfl
  | cons q rest ih =>
    obtain ⟨a, ws⟩ := q
    simp only [addWaiter]
    by_cases ha : a = r
    · rw [if_pos ha]
      by_cases hk : k = a
      · subst hk
        simp [lookupKey]
      · rw [lookupKey_cons_ne _ _ hk, lookupKey_cons_ne _ _ hk]
    · rw [if_neg ha]
      by_cases hk : k = a
      · subst hk
        simp [lookupKey]
      · rw [lookupKey_cons_ne _ _ hk, lookupKey_cons_ne _ _ hk]
        exact ih

/-- Per-step fetch bound for the concurrent loader: a fetch starts for
`r` only when `r` is neither cached nor in flight, and afterwards it is
in flight. -/
theorem loaderStep_fetch_bound (st : LoaderState) (op : LoaderOp)
    (r : String) :
    countEv (LoaderEvent.fetchStart r) (loaderStep st op).2 +
      loaderFlag st r ≤ loaderFlag (loaderStep st op).1 r := by
  cases op with
  | call cid r₀ =>
    simp only [loaderStep]
    cases hc : lookupKey r₀ st.cache with
    | some res =>
      simp [countEv, loaderFlag]
    | none =>
      cases hi : lookupKey r₀ st.inflight with
      | some ws =>
        have hpres : (lookupKey r (addWaiter r₀ cid st.inflight)).isSome =
          (lookupKey r st.inflight).isSome := lookupKey_addWaiter r r₀ cid _
        simp [countEv, loaderFlag, hpres]
      | none =>
        by_cases hrr : r = r₀
        · subst hrr
          simp [countEv, loaderFlag, hc, hi, lookupKey_cons_self]
        · have hne : LoaderEvent.fetchStart r₀ ≠ LoaderEvent.fetchStart r := by
            intro hcon
            injection hcon with ha
            exact hrr ha.symm
          simp only [loaderFlag]
          rw [show lookupKey r ((r₀, [cid]) :: st.inflight) =
            lookupKey r st.inflight from lookupKey_cons_ne _ _ hrr]
          simp [countEv, hne]
  | finish r₀ res =>
    simp only [loaderStep]
    cases hc : lookupKey r₀ st.cache with
    | some _ => simp [countEv, loaderFlag]
    | none =>
      cases hi : lookupKey r₀ st.inflight with
      | none => simp [countEv, loaderFlag]
      | some ws =>
        have hnofetch : ∀ cid : Nat,
            (LoaderEvent.observe cid r₀ res) ≠ LoaderEvent.fetchStart r := by
          intro cid hcon
          exact LoaderEvent.noConfusion hcon
        have hcount : countEv (LoaderEvent.fetchStart r)
            (ws.map (fun cid => LoaderEvent.observe cid r₀ res)) = 0 := by
          refine countEv_eq_zero (fun hmem => ?_)
          obtain ⟨cid, _, hcid⟩ := List.mem_map.mp hmem
          exact hnofetch cid hcid
        rw [hcount]
        by_cases hrr : r = r₀
        · subst hrr
          simp [loaderFlag, hc, hi, lookupKey_cons_self]
        · simp only [loaderFlag]
          rw [show lookupKey r ((r₀, res) :: st.cache) =
            lookupKey r st.cache from lookupKey_cons_ne _ _ hrr,
            lookupKey_filter_ne r r₀ st.inflight hrr]
          simp

/-- Whole-run fetch bound for the concurrent loader. -/
theorem loaderRun_fetch_bound (r : String) :
    ∀ (ops : List LoaderOp) (st : LoaderState),
      countEv (LoaderEvent.fetchStart r) (loaderRun st ops).2 +
        loaderFlag st r ≤ loaderFlag (loaderRun st ops).1 r := by
  intro ops
  induction ops with
  | nil =>
    intro st
    simp [loaderRun, countEv]
  | cons op rest ih =>
    intro st
    have h1 := loaderStep_fetch_bound st op r
    have h2 := ih (loaderStep st op).1
    simp only [loaderRun, countEv_append]
    omega

theorem loaderFlag_le_one (st : LoaderState) (r : String) :
    loaderFlag st r ≤ 1 := by
  unfold loaderFlag
  split <;> simp

/-- Every result a caller observes in one step is, immediately after
that step, the cached Ready-or-Failed result for its remote. -/
theorem loaderStep_observe (st : LoaderState) (op : LoaderOp)
    (cid : Nat) (r : String) (res : LoadResult)
    (h : LoaderEvent.observe cid r res ∈ (loaderStep st op).2) :
    lookupKey r (loaderStep st op).1.cache = some res := by
  cases op with
  | call cid₀ r₀ =>
    simp only [loaderStep] at *
    cases hc : lookupKey r₀ st.cache with
    | some res₀ =>
      rw [hc] at h
      simp at h
      obtain ⟨_, hr, hres⟩ := h
      subst hr
      subst hres
      simpa using hc
    | none =>
      rw [hc] at h
      cases hi : lookupKey r₀ st.inflight with
      | some ws => rw [hi] at h; simp at h
      | none => rw [hi] at h; simp at h
  | finish r₀ res₀ =>
    simp only [loaderStep] at *
    cases hc : lookupKey r₀ st.cache with
    | some _ => rw [hc] at h; simp at h
    | none =>
      rw [hc] at h
      cases hi : lookupKey r₀ st.inflight with
      | none => rw [hi] at h; simp at h
      | some ws =>
        rw [hi] at h
        simp only [List.mem_map] at h
        obtain ⟨cid', _, hev⟩ := h
        injection hev with h1 h2 h3
        subst h2
        subst h3
        simp [lookupKey_cons_self]

/-- Cached loader results are permanent within a step. -/
theorem loaderStep_cache_preserved (st : LoaderState) (op : LoaderOp)
    (k : String) (x : LoadResult)
    (h : lookupKey k st.cache = some x) :
    lookupKey k (loaderStep st op).1.cache = some x := by
  cases op with
  | call cid r₀ =>
    simp only [loaderStep]
    cases hc : lookupKey r₀ st.cache <;>
      first
        | exact h
        | (cases hi : lookupKey r₀ st.inflight <;> exact h)
  | finish r₀ res =>
    simp only [loaderStep]
    cases hc : lookupKey r₀ st.cache with
    | some _ => exact h
    | none =>
      cases hi : lookupKey r₀ st.inflight with
      | none => exact h
      | some ws =>
        have hne : k ≠ r₀ := by
          intro hk
          rw [hk, hc] at h
          exact Option.noConfusion h
        show lookupKey k ((r₀, res) :: st.cache) = some x
        rwa [lookupKey_cons_ne _ _ hne]

/-- Cached loader results are permanent across a run. -/
theorem loaderRun_cache_preserved :
    ∀ (ops : List LoaderOp) (st : LoaderState) (k : String) (x : LoadResult),
      lookupKey k st.cache = some x →
      lookupKey k (loaderRun st ops).1.cache = some x := by
  intro ops
  induction ops with
  | nil =>
    intro st k x h
    simpa [loaderRun] using h
  | cons op rest ih =>
    intro st k x h
    simp only [loaderRun]
    exact ih _ k x (loaderStep_cache_preserved st op k x h)

/-- Every result any caller observes during a run is the final cached
Ready-or-Failed result for its remote. -/
theorem loaderRun_observe :
    ∀ (ops : List LoaderOp) (st : LoaderState) (cid : Nat) (r : String)
      (res : LoadResult),
      LoaderEvent.observe cid r res ∈ (loaderRun st ops).2 →
      lookupKey r (loaderRun st ops).1.cache = some res := by
  intro ops
  induction ops with
  | nil =>
    intro st cid r res h
    simp [loaderRun] at h
  | cons op rest ih =>
    intro st cid r res h
    simp only [loaderRun, List.mem_append] at h
    rcases h with h1 | h2
    · simp only [loaderRun]
      exact loaderRun_cache_preserved rest _ r res
        (loaderStep_observe st op cid r res h1)
    · simp only [loaderRun]
      exact ih _ cid r res h2

/-! ## Concrete fixtures used by witnesses -/

/-- A minimal Ready container for witness scenarios. -/
def testContainer : Container := ⟨"rem", [("./m", 7)], []⟩

/-- A world whose every fetch succeeds with `testContainer`. -/
def testWorld : World := ⟨fun _ => .ok testContainer⟩

/-- A world whose every fetch fails with cause 42. -/
def failWorld : World := ⟨fun _ => .error 42⟩

/-- A Session state knowing the remote `rem` and nothing else. -/
def testState : State := ⟨[("rem", "loc")], [], [], []⟩

/-- Shared Scope holding `lib@1.2.0` and `lib@1.5.0` (spec §8). -/
def libScope : List SharedEntry :=
  [⟨"lib", ⟨1, 2, 0⟩, 10, false, false⟩,
   ⟨"lib", ⟨1, 5, 0⟩, 15, false, false⟩]

/-- Non-singleton request for `lib` with range `>=1.0.0` (spec §8). -/
def libReq : SharedReq := ⟨"lib", ">=1.0.0", false, false, none⟩

/-- The `ui@3.0.0` singleton instance of the spec §8 scenario. -/
def uiEntry : SharedEntry := ⟨"ui", ⟨3, 0, 0⟩, 30, true, false⟩

/-- The `{name:"ui", versionRange:"^3.0.0", singleton:true}` requirement
of the spec §8 scenario. -/
def uiReq : SharedReq := ⟨"ui", "^3.0.0", true, false, none⟩

/-- The `catalog` remote of the spec §8 scenario, exposing `./Widget`
and requiring the `ui` singleton. -/
def catContainer : Container := ⟨"catalog", [("./Widget", 9)], [uiReq]⟩

/-- State with the `catalog` container cached Ready and `ui@3.0.0`
provided as a singleton. -/
def catState : State :=
  ⟨[("catalog", "X")], [("catalog", .ok catContainer)], [], [uiEntry]⟩

/-- State with the `rem` container already cached Ready. -/
def readyState : State :=
  ⟨[("rem", "loc")], [("rem", .ok testContainer)], [], []⟩

/-- State with the shipped `my-app-one` container cached Ready and an
empty Shared Scope. -/
def appOneState : State := ⟨[], [("my-app-one", .ok myAppOne)], [], []⟩

/-! ## The claims -/

/-- C2: if a consumer requests `singleton=true` and the Shared Scope
already holds an active singleton instance for that name whose version
does not satisfy the requested range, resolution fails with
`SingletonVersionConflictError` under the default configuration
(`warnAndOverride` not enabled); no candidate is silently selected. -/
theorem singleton_conflict_fails (cfg : Config) (scope : List SharedEntry)
    (req : SharedReq) (ent : SharedEntry)
    (hpol : cfg.warnAndOverride = false)
    (hsing : req.singleton = true)
    (hact : activeSingleton scope req.name = some ent)
    (hbad : rangeSatisfies req.requiredVersion ent.version = false) :
    require cfg scope req =
      .error (.singletonVersionConflict req.name ent.version
        req.requiredVersion) := by
  simp [require, hsing, hact, hbad, hpol]

/-- Witness for C2: the spec §8 scenario — requesting
`lib >=1.0.0 <2.0.0` as singleton while `lib@2.1.0` is the active
singleton fails with the conflict error. -/
theorem singleton_conflict_fails_witness :
    require defaultConfig [⟨"lib", ⟨2, 1, 0⟩, 5, true, false⟩]
      ⟨"lib", ">=1.0.0 <2.0.0", true, false, none⟩ =
      .error (.singletonVersionConflict "lib" ⟨2, 1, 0⟩
        ">=1.0.0 <2.0.0") :=
  singleton_conflict_fails defaultConfig
    [⟨"lib", ⟨2, 1, 0⟩, 5, true, false⟩]
    ⟨"lib", ">=1.0.0 <2.0.0", true, false, none⟩
    ⟨"lib", ⟨2, 1, 0⟩, 5, true, false⟩
    rfl rfl (by rfl) (by decide)

/-- C3: a non-singleton `require` for which some registered candidate
satisfies the range selects a satisfying candidate of numerically
highest version among the satisfying candidates; concretely, with
`lib@1.2.0` and `lib@1.5.0` registered and range `>=1.0.0`, the
`1.5.0` instance is returned. -/
theorem require_picks_highest (cfg : Config) (scope : List SharedEntry)
    (req : SharedReq)
    (hs : req.singleton = false)
    (hex : ∃ e ∈ scope, e.name = req.name ∧
      rangeSatisfies req.requiredVersion e.version = true) :
    (∃ e, e ∈ scope ∧ e.name = req.name ∧
      rangeSatisfies req.requiredVersion e.version = true ∧
      require cfg scope req = .ok (e.inst, scope) ∧
      ∀ e' ∈ scope, e'.name = req.name →
        rangeSatisfies req.requiredVersion e'.version = true →
        Version.ltb e.version e'.version = false) ∧
    require defaultConfig libScope libReq = .ok (15, libScope) := by
  constructor
  · obtain ⟨e₀, he₀, hn₀, hr₀⟩ := hex
    have hne : candidates scope req ≠ [] := by
      intro hnil
      have : e₀ ∈ candidates scope req := mem_candidates.mpr ⟨he₀, hn₀, hr₀⟩
      rw [hnil] at this
      exact List.not_mem_nil e₀ this
    rcases pickHighest_spec (candidates scope req) with ⟨hnil, _⟩ |
      ⟨e, hpk, hmem, hmax⟩
    · exact absurd hnil hne
    · obtain ⟨hescope, hename, hesat⟩ := mem_candidates.mp hmem
      refine ⟨e, hescope, hename, hesat, ?_, ?_⟩
      · unfold require
        rw [hs]
        simp only [Bool.false_eq_true, if_false]
        unfold selectBest
        rw [hpk]
      · intro e' he' hn' hr'
        exact hmax e' (mem_candidates.mpr ⟨he', hn', hr'⟩)
  · rfl

/-- Witness for C3: the two hypotheses hold for the concrete §8 scope
and request, and the selected instance is `lib@1.5.0`. -/
theorem require_picks_highest_witness :
    ∃ e, e ∈ libScope ∧ e.name = libReq.name ∧
      rangeSatisfies libReq.requiredVersion e.version = true ∧
      require defaultConfig libScope libReq = .ok (e.inst, libScope) ∧
      ∀ e' ∈ libScope, e'.name = libReq.name →
        rangeSatisfies libReq.requiredVersion e'.version = true →
        Version.ltb e.version e'.version = false :=
  (require_picks_highest defaultConfig libScope libReq rfl
    ⟨⟨"lib", ⟨1, 5, 0⟩, 15, false, false⟩, by decide, rfl, by decide⟩).1

/-- C10: the shipped `my-app-one` configuration carries the literal
strings `deps.react` and `deps["react-dom"]` as the required-version
fields of its react and react-dom singleton requirements; under the
standard semver comparator no version satisfies them — in particular
not react 18.2.0 from package.json — so version negotiation can never
select any candidate for these requirements by range satisfaction. -/
theorem shipped_required_versions_unsatisfiable :
    myAppOne.shared = [reactShared, reactDomShared] ∧
    reactShared.requiredVersion = "deps.react" ∧
    reactDomShared.requiredVersion = "deps[\"react-dom\"]" ∧
    (∀ v, rangeSatisfies reactShared.requiredVersion v = false) ∧
    (∀ v, rangeSatisfies reactDomShared.requiredVersion v = false) ∧
    rangeSatisfies reactShared.requiredVersion reactVersion = false ∧
    (∀ scope, candidates scope reactShared = []) ∧
    (∀ scope, candidates scope reactDomShared = []) := by
  have hp1 : parseRange "deps.react" = none := by decide
  have hp2 : parseRange "deps[\"react-dom\"]" = none := by decide
  have h4 : ∀ v, rangeSatisfies reactShared.requiredVersion v = false := by
    intro v
    show rangeSatisfies "deps.react" v = false
    unfold rangeSatisfies
    rw [hp1]
  have h5 : ∀ v, rangeSatisfies reactDomShared.requiredVersion v = false := by
    intro v
    show rangeSatisfies "deps[\"react-dom\"]" v = false
    unfold rangeSatisfies
    rw [hp2]
  refine ⟨rfl, rfl, rfl, h4, h5, h4 reactVersion, ?_, ?_⟩
  · intro scope
    unfold candidates
    refine List.filter_eq_nil_iff.mpr (fun e _ => ?_)
    rw [h4 e.version]
    simp
  · intro scope
    unfold candidates
    refine List.filter_eq_nil_iff.mpr (fun e _ => ?_)
    rw [h5 e.version]
    simp

/-- C1: over any sequence of Session operations the factory for a given
(remote, exposed path) pair is invoked at most once per process, and a
`resolve` repeated after one successful resolution returns the identical
cached ResolvedModule, emitting no further events (no factory re-run,
no fetch). -/
theorem resolve_cached_stable (cfg : Config) (w : World) (st st' : State)
    (r p : String) (evs : List Event) (m : Nat) :
    (∀ ops : List Op, countEv (Event.invoke r p) (run cfg w st ops).2 ≤ 1) ∧
    (resolve cfg w st r p = (st', evs, .ok m) →
      resolve cfg w st' r p = (st', [], .ok m)) := by
  constructor
  · intro ops
    have h1 := run_invoke_bound cfg w r p ops st
    have h2 := moduleFlag_le_one (run cfg w st ops).1 r p
    omega
  · intro h
    have hmod := resolve_ok_module h
    simp [resolve, hmod]

/-- Witness for C1: after the first successful resolution of
`("rem", "./m")`, a second call returns the same cached module 7 with
no events. -/
theorem resolve_cached_stable_witness :
    resolve defaultConfig testWorld
      ⟨[("rem", "loc")], [("rem", .ok testContainer)],
        [(("rem", "./m"), 7)], []⟩ "rem" "./m" =
      (⟨[("rem", "loc")], [("rem", .ok testContainer)],
        [(("rem", "./m"), 7)], []⟩, [], .ok 7) :=
  (resolve_cached_stable defaultConfig testWorld testState
    ⟨[("rem", "loc")], [("rem", .ok testContainer)],
      [(("rem", "./m"), 7)], []⟩
    "rem" "./m" [Event.fetch "rem", Event.invoke "rem" "./m"] 7).2 (by rfl)

/-- C4: a remote whose artifact fetch fails transitions to Failed with
the `RemoteLoadError` wrapping the original cause cached; every
subsequent `resolve` for that remote returns the very same error with
no new fetch, until the entry is explicitly invalidated. -/
theorem failed_container_sticky (cfg : Config) (w : World) (st : State)
    (r p loc : String) (cause : Nat)
    (hm : lookupKey (r, p) st.modules = none)
    (hc : lookupKey r st.containers = none)
    (hreg : lookupKey r st.registry = some loc)
    (hf : w.fetch loc = .error cause) :
    resolve cfg w st r p =
      ({ st with containers :=
          (r, .error (.remoteLoad cause)) :: st.containers },
        [Event.fetch r], .error (.remoteLoad cause)) ∧
    (∀ (st₂ : State) (p' : String),
      lookupKey r st₂.containers = some (.error (.remoteLoad cause)) →
      lookupKey (r, p') st₂.modules = none →
      resolve cfg w st₂ r p' = (st₂, [], .error (.remoteLoad cause))) ∧
    (∀ st₃ : State, lookupKey r (invalidate st₃ r).containers = none) := by
  refine ⟨?_, ?_, fun st₃ => lookupKey_invalidate st₃ r⟩
  · simp [resolve, loadContainer, hm, hc, hreg, hf]
  · intro st₂ p' h1 h2
    simp [resolve, loadContainer, h2, h1]

/-- Witness for C4: with every fetch failing with cause 42, the first
resolve of `rem` caches the `RemoteLoadError` and a second resolve for
another path replays it verbatim with no events. -/
theorem failed_container_sticky_witness :
    resolve defaultConfig failWorld testState "rem" "./m" =
      ({ testState with containers := [("rem", .error (.remoteLoad 42))] },
        [Event.fetch "rem"], .error (.remoteLoad 42)) ∧
    resolve defaultConfig failWorld
      { testState with containers := [("rem", .error (.remoteLoad 42))] }
      "rem" "./other" =
      ({ testState with containers := [("rem", .error (.remoteLoad 42))] },
        [], .error (.remoteLoad 42)) := by
  have h := failed_container_sticky defaultConfig failWorld testState
    "rem" "./m" "loc" 42 rfl rfl rfl rfl
  exact ⟨h.1, h.2.1 _ "./other" (by rfl) rfl⟩

/-- C5: over any sequence of Session operations the Container cache
holds at most one Container per remote name (its keys stay
duplicate-free), a remote is fetched at most once, and a remote whose
Container is already cached (Ready or Failed) is never fetched again. -/
theorem container_cache_unique (cfg : Config) (w : World) (st : State)
    (ops : List Op) (r : String) :
    ((st.containers.map Prod.fst).Nodup →
      (((run cfg w st ops).1.containers).map Prod.fst).Nodup) ∧
    countEv (Event.fetch r) (run cfg w st ops).2 ≤ 1 ∧
    ((lookupKey r st.containers).isSome = true →
      countEv (Event.fetch r) (run cfg w st ops).2 = 0) := by
  refine ⟨run_nodup cfg w ops st, ?_, ?_⟩
  · have h1 := run_fetch_bound cfg w r ops st
    have h2 := containerFlag_le_one (run cfg w st ops).1 r
    omega
  · intro hsome
    have h1 := run_fetch_bound cfg w r ops st
    have h2 := containerFlag_le_one (run cfg w st ops).1 r
    have h3 : containerFlag st r = 1 := by
      unfold containerFlag
      rw [hsome]
      rfl
    omega

/-- Witness for C5: from a state with `rem` cached Ready, two further
resolutions keep the cache keys duplicate-free and fetch nothing. -/
theorem container_cache_unique_witness :
    (((run defaultConfig testWorld readyState
      [Op.resolveOp "rem" "./m", Op.resolveOp "rem" "./m"]).1.containers).map
        Prod.fst).Nodup ∧
    countEv (Event.fetch "rem")
      (run defaultConfig testWorld readyState
        [Op.resolveOp "rem" "./m", Op.resolveOp "rem" "./m"]).2 = 0 := by
  have h := container_cache_unique defaultConfig testWorld readyState
    [Op.resolveOp "rem" "./m", Op.resolveOp "rem" "./m"] "rem"
  exact ⟨h.1 (by simp [readyState]), h.2.2 (by rfl)⟩

/-- C8: when any declared shared-dependency requirement fails to
resolve, the whole `resolve` call fails with exactly that error and the
state — in particular the module cache — is left unchanged; in general
every failing resolution leaves the module cache without any partial
entry. -/
theorem shared_failure_fail_fast (cfg : Config) (w : World) (st : State)
    (r p : String) (c : Container) (evS : List Event) (e : FedError)
    (hm : lookupKey (r, p) st.modules = none)
    (hc : lookupKey r st.containers = some (.ok c))
    (hr : requireList cfg r st.scope c.shared = (evS, .error e)) :
    resolve cfg w st r p = (st, evS, .error e) ∧
    (∀ (cfg' : Config) (w' : World) (st₀ st₁ : State) (r' p' : String)
      (evs : List Event) (e' : FedError),
      resolve cfg' w' st₀ r' p' = (st₁, evs, .error e') →
      st₁.modules = st₀.modules) := by
  constructor
  · have hlc : loadContainer w st r = (st, [], .ok c) := by
      simp [loadContainer, hc]
    simp [resolve, hm, hlc, hr]
  · intro cfg' w' st₀ st₁ r' p' evs e' h
    exact resolve_error_modules h

/-- Witness for C8: resolving the shipped `my-app-one` remote with an
empty Shared Scope fails fast on its first declared requirement
(`react`), leaving the state untouched. -/
theorem shared_failure_fail_fast_witness :
    resolve defaultConfig testWorld appOneState "my-app-one" "./lodash" =
      (appOneState, [Event.requireShared "my-app-one" "react"],
        .error (.sharedDependencyUnresolved "react")) :=
  (shared_failure_fail_fast defaultConfig testWorld appOneState
    "my-app-one" "./lodash" myAppOne
    [Event.requireShared "my-app-one" "react"]
    (.sharedDependencyUnresolved "react") rfl rfl (by rfl)).1

/-- C9: resolving an exposed path absent from a Ready Container's
exposed-path table fails with `UnknownExposedPathError`; the shipped
`my-app-one` remote exposes exactly `./lodash` and `./moment`, so every
other path misses its table. -/
theorem unknown_exposed_path_fails (cfg : Config) (w : World) (st : State)
    (r p : String) (c : Container) (evS : List Event)
    (scope₂ : List SharedEntry)
    (hm : lookupKey (r, p) st.modules = none)
    (hc : lookupKey r st.containers = some (.ok c))
    (hs : requireList cfg r st.scope c.shared = (evS, .ok scope₂))
    (hp : lookupKey p c.exposes = none) :
    resolve cfg w st r p =
      ({ st with scope := scope₂ }, evS,
        .error (.unknownExposedPath r p)) ∧
    myAppOne.exposes.map Prod.fst = ["./lodash", "./moment"] ∧
    (∀ q : String, q ≠ "./lodash" → q ≠ "./moment" →
      lookupKey q myAppOne.exposes = none) := by
  refine ⟨?_, rfl, ?_⟩
  · have hlc : loadContainer w st r = (st, [], .ok c) := by
      simp [loadContainer, hc]
    simp [resolve, hm, hlc, hs, hp]
  · intro q h1 h2
    show lookupKey q [("./lodash", 0), ("./moment", 1)] = none
    rw [lookupKey_cons_ne _ _ h1, lookupKey_cons_ne _ _ h2]
    rfl

/-- Witness for C9: the `catalog` container exposes only `./Widget`, so
resolving `./Nope` fails with `UnknownExposedPathError` after its
shared dependency resolved. -/
theorem unknown_exposed_path_fails_witness :
    resolve defaultConfig testWorld catState "catalog" "./Nope" =
      ({ catState with scope := [uiEntry] },
        [Event.requireShared "catalog" "ui"],
        .error (.unknownExposedPath "catalog" "./Nope")) :=
  (unknown_exposed_path_fails defaultConfig testWorld catState
    "catalog" "./Nope" catContainer [Event.requireShared "catalog" "ui"]
    [uiEntry] rfl rfl (by rfl) rfl).1

/-- Dependency name carried by a `requireShared` event, if any. -/
def evDep : Event → Option String
  | .requireShared _ d => some d
  | _ => none

theorem filterMap_evDep_take (remote : String) (reqs : List SharedReq)
    (n : Nat) :
    ((reqs.map (fun q => Event.requireShared remote q.name)).take
      n).filterMap evDep = (reqs.map SharedReq.name).take n := by
  rw [← List.map_take, ← List.map_take, List.filterMap_map]
  have hcomp : (evDep ∘ fun q : SharedReq =>
      Event.requireShared remote q.name) = fun q => some q.name := rfl
  rw [hcomp]
  exact List.filterMap_eq_map _ ▸ rfl

/-- C6: in the event trace of any `resolve` call against a Ready
Container, all shared-dependency resolutions (a prefix of the
Container's declaration list, in declaration order) strictly precede
the factory invocation, which can only be the final event; on success
the resolved dependencies are exactly the full declaration list. -/
theorem shared_resolution_precedes_factory (cfg : Config) (w : World)
    (st st' : State) (r p : String) (c : Container) (evs : List Event)
    (res : Except FedError Nat)
    (hm : lookupKey (r, p) st.modules = none)
    (hc : lookupKey r st.containers = some (.ok c))
    (h : resolve cfg w st r p = (st', evs, res)) :
    ∃ evS tail n,
      evs = evS ++ tail ∧
      (∀ e ∈ evS, ∃ d, e = Event.requireShared r d) ∧
      evS.filterMap evDep = (c.shared.map SharedReq.name).take n ∧
      (tail = [] ∨ tail = [Event.invoke r p]) ∧
      (∀ m, res = .ok m → tail = [Event.invoke r p] ∧
        evS.filterMap evDep = c.shared.map SharedReq.name) := by
  have hlc0 : loadContainer w st r = (st, [], .ok c) := by
    simp [loadContainer, hc]
  rcases resolve_cases cfg w st r p with ⟨m', hm', hre⟩ |
    ⟨_, st₁, evL, ⟨e, hlc, hre⟩ | ⟨c', hlc, hcases⟩⟩
  · rw [hm'] at hm
    exact Option.noConfusion hm
  · rw [hlc0] at hlc
    obtain ⟨_, h2⟩ := Prod.mk.injEq .. ▸ hlc
    obtain ⟨_, h3⟩ := Prod.mk.injEq .. ▸ h2
    exact Except.noConfusion h3
  · rw [hlc0] at hlc
    obtain ⟨h1, h2⟩ := Prod.mk.injEq .. ▸ hlc
    obtain ⟨h3, h4⟩ := Prod.mk.injEq .. ▸ h2
    have hcc : c = c' := by
      injection h4 with h5
    subst hcc
    subst h1
    rw [← h3] at hcases
    rcases hcases with ⟨evS, e, hrl, hre⟩ |
      ⟨evS, scope₂, hrl, ⟨hp, hre⟩ | ⟨m', hp, hre⟩⟩
    · rw [hre] at h
      obtain ⟨_, hx2⟩ := Prod.mk.injEq .. ▸ h
      obtain ⟨hx3, hx4⟩ := Prod.mk.injEq .. ▸ hx2
      obtain ⟨n, _, hevs, _⟩ :=
        requireList_events cfg r c.shared st.scope evS (.error e) hrl
      refine ⟨evS, [], n, by rw [← hx3]; simp, ?_, ?_, Or.inl rfl, ?_⟩
      · exact requireList_events_shape hrl
      · rw [hevs]
        exact filterMap_evDep_take r c.shared n
      · intro m hresok
        rw [← hx4] at hresok
        exact Except.noConfusion hresok
    · rw [hre] at h
      obtain ⟨_, hx2⟩ := Prod.mk.injEq .. ▸ h
      obtain ⟨hx3, hx4⟩ := Prod.mk.injEq .. ▸ hx2
      obtain ⟨n, _, hevs, _⟩ :=
        requireList_events cfg r c.shared st.scope evS (.ok scope₂) hrl
      refine ⟨evS, [], n, by rw [← hx3]; simp, ?_, ?_, Or.inl rfl, ?_⟩
      · exact requireList_events_shape hrl
      · rw [hevs]
        exact filterMap_evDep_take r c.shared n
      · intro m hresok
        rw [← hx4] at hresok
        exact Except.noConfusion hresok
    · rw [hre] at h
      obtain ⟨_, hx2⟩ := Prod.mk.injEq .. ▸ h
      obtain ⟨hx3, hx4⟩ := Prod.mk.injEq .. ▸ hx2
      obtain ⟨n, _, hevs, hok⟩ :=
        requireList_events cfg r c.shared st.scope evS (.ok scope₂) hrl
      have hn : n = c.shared.length := hok scope₂ rfl
      have hfull : evS.filterMap evDep = c.shared.map SharedReq.name := by
        rw [hevs, filterMap_evDep_take r c.shared n, hn,
          ← List.length_map c.shared SharedReq.name]
        exact List.take_length _
      refine ⟨evS, [Event.invoke r p], n, by rw [← hx3]; simp, ?_,
        ?_, Or.inr rfl, ?_⟩
      · exact requireList_events_shape hrl
      · rw [hevs]
        exact filterMap_evDep_take r c.shared n
      · intro m hresok
        exact ⟨rfl, hfull⟩

/-- Witness for C6: resolving `./Widget` from the `catalog` container
yields the trace `[requireShared ui, invoke ./Widget]` — the shared
resolution strictly precedes the factory invocation. -/
theorem shared_resolution_precedes_factory_witness :
    ∃ evS tail n,
      ([Event.requireShared "catalog" "ui",
        Event.invoke "catalog" "./Widget"] : List Event) = evS ++ tail ∧
      (∀ e ∈ evS, ∃ d, e = Event.requireShared "catalog" d) ∧
      evS.filterMap evDep =
        (catContainer.shared.map SharedReq.name).take n ∧
      (tail = [] ∨ tail = [Event.invoke "catalog" "./Widget"]) ∧
      (∀ m, (Except.ok m : Except FedError Nat) = .ok 9 →
        tail = [Event.invoke "catalog" "./Widget"] ∧
        evS.filterMap evDep = catContainer.shared.map SharedReq.name) := by
  have h := shared_resolution_precedes_factory defaultConfig testWorld
    catState ({ catState with modules := [(("catalog", "./Widget"), 9)] })
    "catalog" "./Widget" catContainer
    [Event.requireShared "catalog" "ui", Event.invoke "catalog" "./Widget"]
    (.ok 9) rfl rfl (by rfl)
  obtain ⟨evS, tail, n, h1, h2, h3, h4, h5⟩ := h
  exact ⟨evS, tail, n, h1, h2, h3, h4, fun m _ => h5 9 rfl⟩

/-- C7: from a state where remote `r` is neither cached nor in flight,
a `load` call issues exactly one fetch; every further interleaved call
or completion issues none (later callers attach to the in-flight
operation); and every caller only ever observes the completed
Ready-or-Failed cached result for `r`. -/
theorem concurrent_load_single_fetch (st : LoaderState) (cid : Nat)
    (r : String)
    (hc : lookupKey r st.cache = none)
    (hi : lookupKey r st.inflight = none) :
    loaderStep st (.call cid r) =
      ({ st with inflight := (r, [cid]) :: st.inflight },
        [LoaderEvent.fetchStart r]) ∧
    (∀ ops : List LoaderOp,
      countEv (LoaderEvent.fetchStart r)
        (loaderRun { st with inflight := (r, [cid]) :: st.inflight }
          ops).2 = 0) ∧
    (∀ (ops : List LoaderOp) (st₀ stF : LoaderState)
      (evs : List LoaderEvent) (cid' : Nat) (res : LoadResult),
      loaderRun st₀ ops = (stF, evs) →
      LoaderEvent.observe cid' r res ∈ evs →
      lookupKey r stF.cache = some res) := by
  refine ⟨by simp [loaderStep, hc, hi], ?_, ?_⟩
  · intro ops
    have hflag : loaderFlag
        { st with inflight := (r, [cid]) :: st.inflight } r = 1 := by
      unfold loaderFlag
      rw [show lookupKey r ((r, [cid]) :: st.inflight) = some [cid] from
        lookupKey_cons_self ..]
      simp
    have h1 := loaderRun_fetch_bound r ops
      { st with inflight := (r, [cid]) :: st.inflight }
    have h2 := loaderFlag_le_one
      (loaderRun { st with inflight := (r, [cid]) :: st.inflight } ops).1 r
    omega
  · intro ops st₀ stF evs cid' res h hmem
    have hobs := loaderRun_observe ops st₀ cid' r res (by rw [h]; exact hmem)
    rwa [h] at hobs

/-- Witness for C7: from the empty loader state, caller 0's `load` of
`my_app_one` issues the one fetch; a second concurrent caller and the
completion issue none. -/
theorem concurrent_load_single_fetch_witness :
    loaderStep (⟨[], []⟩ : LoaderState) (.call 0 "my_app_one") =
      (⟨[], [("my_app_one", [0])]⟩, [LoaderEvent.fetchStart "my_app_one"]) ∧
    countEv (LoaderEvent.fetchStart "my_app_one")
      (loaderRun ⟨[], [("my_app_one", [0])]⟩
        [LoaderOp.call 1 "my_app_one",
         LoaderOp.finish "my_app_one" (.ok myAppOne)]).2 = 0 := by
  have h := concurrent_load_single_fetch ⟨[], []⟩ 0 "my_app_one" rfl rfl
  exact ⟨h.1, h.2.1 [LoaderOp.call 1 "my_app_one",
    LoaderOp.finish "my_app_one" (.ok myAppOne)]⟩

end Federation
